import Mathlib

/-
Verification of the v-OCR client (a browser-based OCR front end).

The development shallowly embeds the TypeScript sources:
  * src/lib/encryption.ts       (encryptApiKey, decryptApiKey, maskApiKey, deriveKey)
  * src/lib/api-key-service.ts  (saveApiKey, getApiKey over the user_api_keys table)
  * src/lib/deepseek-client.ts  (extractText, handleErrorResponse, handleException,
                                 OCR_PROMPTS, validateFile)
  * src/components/batch-processor.tsx (processFiles, retryFailed, handleDownloadZip)

Browser platform primitives (Web Crypto, TextEncoder/TextDecoder, btoa/atob) are not
repository code; they are modelled by a `Platform` structure whose fields carry the
documented contracts of those APIs (e.g. AES-GCM decryption inverts encryption under
the same key and IV).  All repository functions are translated as computable
definitions parameterised by such a platform; `refPlatform` is a concrete instance
used to evaluate them on concrete inputs.  Strings are modelled at code-point
granularity (one Lean `Char` per JavaScript string element).
-/

set_option maxRecDepth 4000

/-- Browser platform primitives used by src/lib/encryption.ts, bundled with the
contracts the Web-Platform specification guarantees for them:
`textEncode`/`textDecode` model `TextEncoder.encode`/`TextDecoder.decode`
(bytes, and decoding inverts encoding); `pbkdf2Sha256` models the
PBKDF2/SHA-256 key derivation of `crypto.subtle.deriveKey`;
`aesGcmEncrypt`/`aesGcmDecrypt` model `crypto.subtle.encrypt`/`decrypt` for
AES-GCM (byte output, and decryption with the same key and IV inverts
encryption); `btoa`/`atob` model base64 encoding/decoding of byte strings
(decoding inverts encoding on byte values below 256). -/
structure Platform where
  textEncode : String → List Nat
  textDecode : List Nat → String
  pbkdf2Sha256 : List Nat → List Nat → Nat → List Nat
  aesGcmEncrypt : List Nat → List Nat → List Nat → List Nat
  aesGcmDecrypt : List Nat → List Nat → List Nat → Option (List Nat)
  btoa : List Nat → String
  atob : String → List Nat
  textEncode_byte_lt : ∀ s, ∀ b ∈ textEncode s, b < 256
  textDecode_textEncode : ∀ s, textDecode (textEncode s) = s
  aesGcmEncrypt_byte_lt :
    ∀ k iv m, (∀ b ∈ m, b < 256) → ∀ b ∈ aesGcmEncrypt k iv m, b < 256
  aesGcmDecrypt_encrypt : ∀ k iv m, aesGcmDecrypt k iv (aesGcmEncrypt k iv m) = some m
  atob_btoa : ∀ l, (∀ b ∈ l, b < 256) → atob (btoa l) = l

/-- deriveKey (src/lib/encryption.ts lines 150-175): derives an AES-GCM key from the
user id via PBKDF2 with the fixed salt "vOCR-encryption-salt-v1" and 100000
iterations of SHA-256. -/
def deriveKey (p : Platform) (userId : String) : List Nat :=
  p.pbkdf2Sha256 (p.textEncode userId) (p.textEncode "vOCR-encryption-salt-v1") 100000

/-- encryptApiKey (src/lib/encryption.ts lines 183-216): encodes the key, encrypts it
with AES-GCM under the key derived from the user id and a random 12-byte IV
(here the IV is an explicit parameter, since `crypto.getRandomValues` is
nondeterministic), prepends the IV to the ciphertext and base64-encodes the
combination. -/
def encryptApiKey (p : Platform) (iv : List Nat) (apiKey userId : String) : String :=
  p.btoa (iv ++ p.aesGcmEncrypt (deriveKey p userId) iv (p.textEncode apiKey))

/-- decryptApiKey (src/lib/encryption.ts lines 224-255): base64-decodes the stored
value, splits off the first 12 bytes as the IV, AES-GCM-decrypts the rest under
the key derived from the user id, and decodes the plaintext bytes back to a
string.  `none` models the thrown "Failed to decrypt API key" error. -/
def decryptApiKey (p : Platform) (encryptedData userId : String) : Option String :=
  (p.aesGcmDecrypt (deriveKey p userId) ((p.atob encryptedData).take 12)
    ((p.atob encryptedData).drop 12)).map p.textDecode

/-- maskApiKey (src/lib/encryption.ts lines 262-272): keys shorter than 8 characters
(including the empty string, which is falsy) display as 8 bullets; otherwise the
first 3 characters, 12 bullets, and the last 4 characters.  `substring(0, 3)` is
`take 3` and `substring(length - 4)` is `drop (length - 4)` on the character
list. -/
def maskApiKey (apiKey : String) : String :=
  if apiKey.length < 8 then "••••••••"
  else String.mk (apiKey.data.take 3) ++ String.mk (List.replicate 12 '•') ++
    String.mk (apiKey.data.drop (apiKey.data.length - 4))

/-- Rows of the user_api_keys table, as (user_id, encrypted_api_key) pairs
(src/supabase/migrations/001_create_user_api_keys.sql; the id and timestamp
columns play no role in the verified claims). -/
abbrev Db := List (String × String)

/-- Supabase `select ... eq("user_id", userId) ... single()`: the first row whose
user_id matches (user_id is UNIQUE in the schema, so at most one row matches). -/
def dbLookup : Db → String → Option String
  | [], _ => none
  | (u, v) :: rest, userId => if u = userId then some v else dbLookup rest userId

/-- Supabase `update({encrypted_api_key}) ... eq("user_id", userId)`: overwrites the
encrypted_api_key of every row whose user_id matches. -/
def dbUpdate : Db → String → String → Db
  | [], _, _ => []
  | (u, v) :: rest, userId, newVal =>
    (u, if u = userId then newVal else v) :: dbUpdate rest userId newVal

/-- Supabase `insert({user_id, encrypted_api_key})`: appends a fresh row. -/
def dbInsert (db : Db) (userId newVal : String) : Db := db ++ [(userId, newVal)]

/-- saveApiKey (src/lib/api-key-service.ts lines 17-60): encrypts the key, then
updates the existing row if a lookup finds one, and inserts a new row otherwise.
Backend transport errors (caught and reported as success:false without a write)
are outside the model. -/
def saveApiKey (p : Platform) (iv : List Nat) (db : Db) (userId apiKey : String) : Db :=
  let encryptedKey := encryptApiKey p iv apiKey userId
  match dbLookup db userId with
  | some _ => dbUpdate db userId encryptedKey
  | none => dbInsert db userId encryptedKey

/-- getApiKey (src/lib/api-key-service.ts lines 65-99): looks up the stored
encrypted key and decrypts it; `none` models both the no-row case (PGRST116)
and a decryption failure caught by the surrounding try/catch. -/
def getApiKey (p : Platform) (db : Db) (userId : String) : Option String :=
  match dbLookup db userId with
  | none => none
  | some enc => decryptApiKey p enc userId

/-! Concrete reference platform, used to evaluate the definitions above on
concrete inputs.  Its text codec stores each code point as three base-256
digits; its cipher is the identity on byte strings; its base64 pair maps each
byte to the character with that code point.  All `Platform` contracts are
discharged below. -/

/-- Three base-256 digits of a code point (code points are below 2^21). -/
def refEncodeChar (c : Char) : List Nat :=
  [c.toNat % 256, c.toNat / 256 % 256, c.toNat / 65536]

/-- Reference text encoder: concatenated digit triples. -/
def refTextEncode (s : String) : List Nat := (s.data.map refEncodeChar).flatten

/-- Reference text decoder: reads digit triples back into characters. -/
def refDecChars : List Nat → List Char
  | b0 :: b1 :: b2 :: rest => Char.ofNat (b0 + 256 * b1 + 65536 * b2) :: refDecChars rest
  | _ => []

theorem stringMkData (s : String) : String.mk s.data = s := by cases s; rfl

theorem char_toNat_lt (c : Char) : c.toNat < 1114112 := by
  rcases c.valid with h | h
  · exact Nat.lt_trans h (by norm_num)
  · exact h.2

theorem charToNat_ofNat_byte (b : Nat) (h : b < 256) : (Char.ofNat b).toNat = b := by
  have hv : b.isValidChar := Or.inl (by omega)
  unfold Char.ofNat
  rw [dif_pos hv]
  simp [Char.ofNatAux, Char.toNat, UInt32.toNat]

theorem refEncodeChar_lt (c : Char) : ∀ b ∈ refEncodeChar c, b < 256 := by
  intro b hb
  have hc := char_toNat_lt c
  simp only [refEncodeChar, List.mem_cons, List.not_mem_nil, or_false] at hb
  rcases hb with h | h | h <;> omega

theorem refDec_enc (cs : List Char) : refDecChars ((cs.map refEncodeChar).flatten) = cs := by
  induction cs with
  | nil => rfl
  | cons c cs ih =>
    have hsum : c.toNat % 256 + 256 * (c.toNat / 256 % 256) + 65536 * (c.toNat / 65536)
        = c.toNat := by omega
    simp only [List.map_cons, List.flatten_cons, refEncodeChar, List.cons_append,
      List.nil_append, List.append_eq, refDecChars, ih, hsum, Char.ofNat_toNat]

theorem refMapToNatOfNat (l : List Nat) (h : ∀ b ∈ l, b < 256) :
    (l.map Char.ofNat).map Char.toNat = l := by
  rw [List.map_map]
  have : ∀ b ∈ l, (Char.toNat ∘ Char.ofNat) b = id b := by
    intro b hb
    exact charToNat_ofNat_byte b (h b hb)
  rw [List.map_congr_left this, List.map_id]

/-- Concrete platform instance satisfying all `Platform` contracts. -/
def refPlatform : Platform where
  textEncode := refTextEncode
  textDecode := fun l => String.mk (refDecChars l)
  pbkdf2Sha256 := fun password _salt _iterations => password
  aesGcmEncrypt := fun _k _iv m => m
  aesGcmDecrypt := fun _k _iv c => some c
  btoa := fun l => String.mk (l.map Char.ofNat)
  atob := fun s => s.data.map Char.toNat
  textEncode_byte_lt := by
    intro s b hb
    simp only [refTextEncode, List.mem_flatten, List.mem_map] at hb
    obtain ⟨chunk, ⟨c, _, hce⟩, hbc⟩ := hb
    exact refEncodeChar_lt c b (hce ▸ hbc)
  textDecode_textEncode := by
    intro s
    show String.mk (refDecChars (refTextEncode s)) = s
    rw [refTextEncode, refDec_enc, stringMkData]
  aesGcmEncrypt_byte_lt := by
    intro _k _iv m h b hb
    exact h b hb
  aesGcmDecrypt_encrypt := by
    intro _k _iv m
    rfl
  atob_btoa := by
    intro l h
    show (String.mk (l.map Char.ofNat)).data.map Char.toNat = l
    exact refMapToNatOfNat l h

/-! Embedding of src/lib/deepseek-client.ts. -/

/-- OCRPromptType (src/lib/deepseek-client.ts line 23). -/
inductive OCRPromptType
  | document
  | general
  | free
  | figure
deriving DecidableEq

/-- OCR_PROMPTS (src/lib/deepseek-client.ts lines 25-34). -/
def OCR_PROMPTS : OCRPromptType → String
  | .document => "Convert the document to markdown."
  | .general => "OCR this image."
  | .free => "Free OCR."
  | .figure => "Parse the figure."

/-- Default value of the promptType parameter of extractText
(src/lib/deepseek-client.ts line 40). -/
def defaultPromptType : OCRPromptType := .document

/-- One element of the multimodal message content array sent to the API. -/
inductive ContentPart
  | image_url (url : String)
  | textPart (t : String)
deriving DecidableEq

/-- The request body built by extractText (src/lib/deepseek-client.ts lines
54-78): fixed model name, a single user message whose content is the image
data-URL followed by the prompt text, and max_tokens 4096.  The floating-point
sampling parameters (temperature, penalties) carry no verified content and are
omitted. -/
structure ChatRequest where
  model : String
  content : List ContentPart
  maxTokens : Nat
deriving DecidableEq

/-- Request construction inside extractText (src/lib/deepseek-client.ts lines
54-78). -/
def extractTextRequest (imageBase64 mimeType : String) (promptType : OCRPromptType) :
    ChatRequest :=
  { model := "deepseek-ai/DeepSeek-OCR"
    content := [.image_url ("data:" ++ mimeType ++ ";base64," ++ imageBase64),
      .textPart (OCR_PROMPTS promptType)]
    maxTokens := 4096 }

/-- The text parts of the message content of a request, in order. -/
def promptTextsOf (r : ChatRequest) : List String :=
  r.content.filterMap (fun part => match part with | .textPart t => some t | _ => none)

/-- The request timeout set by extractText (src/lib/deepseek-client.ts line 44). -/
def EXTRACT_TIMEOUT_MS : Nat := 60000

/-- A JavaScript number that is either NaN or an integer (the range of
`parseInt`). -/
inductive JsNum
  | nan
  | num (n : Int)
deriving DecidableEq

/-- Value of a decimal digit string. -/
def jsDigitsVal (cs : List Char) : Nat :=
  cs.foldl (fun acc c => acc * 10 + (c.toNat - 48)) 0

/-- JavaScript whitespace accepted by parseInt. -/
def jsWhitespace (c : Char) : Bool :=
  decide (c = ' ') || decide (c = '\t') || decide (c = '\n') || decide (c = '\r')

/-- Digits of the radix-10 integer at the head of the character list; NaN when
there are none. -/
def jsParseIntFrom (cs : List Char) (negative : Bool) : JsNum :=
  let ds := cs.takeWhile (fun c => c.isDigit)
  if ds = [] then .nan
  else if negative then .num (-(jsDigitsVal ds : Int)) else .num (jsDigitsVal ds)

/-- JavaScript `parseInt(s, 10)`: skip leading whitespace, read an optional
sign, then the longest run of decimal digits; NaN when no digit follows. -/
def jsParseInt (s : String) : JsNum :=
  match s.data.dropWhile jsWhitespace with
  | '-' :: rest => jsParseIntFrom rest true
  | '+' :: rest => jsParseIntFrom rest false
  | cs => jsParseIntFrom cs false

/-- String interpolation of a JsNum (template literals print NaN as "NaN"). -/
def jsNumToString : JsNum → String
  | .nan => "NaN"
  | .num n => toString n

/-- OCRError.type (src/lib/deepseek-client.ts line 14). -/
inductive ErrType
  | invalid_key
  | rate_limit
  | network
  | timeout
  | server
  | unknown
deriving DecidableEq

/-- OCRError (src/lib/deepseek-client.ts lines 13-17). -/
structure OCRError where
  type : ErrType
  message : String
  retryAfter : Option JsNum
deriving DecidableEq

/-- OCRResponse (src/lib/deepseek-client.ts lines 8-11). -/
structure OCRResponse where
  text : String
  tokensUsed : Nat
deriving DecidableEq

/-- The fields of a parsed error-response body that handleErrorResponse reads:
`errorData.error?.message` and `errorData.message`. -/
structure ErrBody where
  nestedErrorMessage : Option String
  topMessage : Option String
deriving DecidableEq

/-- JavaScript `x || dflt` on an optional string: the default replaces both a
missing value and the empty string (which is falsy). -/
def jsOrStr (x : Option String) (dflt : String) : String :=
  match x with
  | some s => if s = "" then dflt else s
  | none => dflt

/-- JavaScript `x || 0`-style defaulting on an optional number. -/
def jsOrNat (x : Option Nat) (dflt : Nat) : Nat :=
  match x with
  | some n => if n = 0 then dflt else n
  | none => dflt

/-- Evaluation of `errorData.error?.message || errorData.message || "Unknown error"`
(src/lib/deepseek-client.ts line 115). -/
def errMessageOf (b : ErrBody) : String :=
  jsOrStr b.nestedErrorMessage (jsOrStr b.topMessage "Unknown error")

/-- handleErrorResponse (src/lib/deepseek-client.ts lines 110-153).  `body = none`
models `response.json()` throwing, which lands in the catch block; otherwise the
status switch applies.  For 429 the Retry-After header is defaulted to "5"
(`headers.get` returns null for a missing header, and the empty string is
falsy) and fed to parseInt. -/
def handleErrorResponse (status : Nat) (retryAfterHeader : Option String)
    (body : Option ErrBody) : OCRError :=
  match body with
  | none =>
    { type := .unknown, message := "HTTP " ++ toString status ++ " error occurred",
      retryAfter := none }
  | some b =>
    if status = 401 ∨ status = 403 then
      { type := .invalid_key,
        message := "Invalid API key. Please update your key in Settings.",
        retryAfter := none }
    else if status = 429 then
      let retryAfter := jsParseInt (jsOrStr retryAfterHeader "5")
      { type := .rate_limit,
        message := "Rate limit reached. Please wait " ++ jsNumToString retryAfter
          ++ " seconds.",
        retryAfter := some retryAfter }
    else if status = 500 ∨ status = 502 ∨ status = 503 then
      { type := .server, message := "DeepInfra server error. Please try again later.",
        retryAfter := none }
    else
      { type := .unknown, message := errMessageOf b, retryAfter := none }

/-- A thrown JavaScript value: an Error with a name and message, or a non-Error
value. -/
inductive JsError
  | jsErr (name msg : String)
  | nonError
deriving DecidableEq

/-- Containment of `sub` as a contiguous sublist (JavaScript
`String.prototype.includes`). -/
def containsSubList [DecidableEq α] (sub : List α) : List α → Bool
  | [] => decide (sub = [])
  | c :: rest => sub.isPrefixOf (c :: rest) || containsSubList sub rest

/-- JavaScript `s.includes(sub)`. -/
def jsIncludes (s sub : String) : Bool := containsSubList sub.data s.data

/-- handleException (src/lib/deepseek-client.ts lines 158-184). -/
def handleException (e : JsError) : OCRError :=
  match e with
  | .jsErr name msg =>
    if name = "AbortError" then
      { type := .timeout,
        message := "Request timed out. Try a smaller file or check your connection.",
        retryAfter := none }
    else if jsIncludes msg "fetch" then
      { type := .network,
        message := "Network error. Please check your internet connection.",
        retryAfter := none }
    else { type := .unknown, message := msg, retryAfter := none }
  | .nonError =>
    { type := .unknown, message := "An unexpected error occurred", retryAfter := none }

/-- Outcome of the awaited fetch inside extractText: an OK response whose body
parsed (with the optional-chained content and token fields), a non-OK response
(with status, Retry-After header, and the error body when `response.json()`
succeeds), or a thrown value (the 60-second abort surfaces as an Error named
"AbortError"). -/
inductive FetchOutcome
  | ok (content : Option String) (totalTokens : Option Nat)
  | httpErr (status : Nat) (retryAfterHeader : Option String) (body : Option ErrBody)
  | thrown (e : JsError)
deriving DecidableEq

/-- The `{ data?, error? }` result of extractText. -/
structure ExtractResult where
  data : Option OCRResponse
  error : Option OCRError
deriving DecidableEq

/-- extractText (src/lib/deepseek-client.ts lines 36-105), as a function of the
fetch outcome: an OK response yields data with
`choices?.[0]?.message?.content || ""` and `usage?.total_tokens || 0`; a non-OK
response yields `handleErrorResponse`; a thrown value yields
`handleException`. -/
def extractText (outcome : FetchOutcome) : ExtractResult :=
  match outcome with
  | .ok content totalTokens =>
    { data := some { text := jsOrStr content "", tokensUsed := jsOrNat totalTokens 0 }
      error := none }
  | .httpErr status hdr body =>
    { data := none, error := some (handleErrorResponse status hdr body) }
  | .thrown e => { data := none, error := some (handleException e) }

/-- The File fields read by validateFile and the batch pipeline. -/
structure JsFile where
  name : String
  type : String
  size : Nat
deriving DecidableEq

/-- MAX_SIZE (src/lib/deepseek-client.ts line 205). -/
def MAX_SIZE : Nat := 10 * 1024 * 1024

/-- ACCEPTED_TYPES (src/lib/deepseek-client.ts lines 206-211). -/
def ACCEPTED_TYPES : List String :=
  ["image/jpeg", "image/png", "image/webp", "application/pdf"]

/-- Decimal rendering of `(size / 1024 / 1024).toFixed(1)` used in the size
error message, modelled with exact rational rounding (the verified claims do
not depend on this string). -/
def formatMB (size : Nat) : String :=
  let tenths := (size * 10 + 524288) / 1048576
  toString (tenths / 10) ++ "." ++ toString (tenths % 10)

/-- The `{ valid, error? }` result of validateFile. -/
structure ValidateResult where
  valid : Bool
  error : Option String
deriving DecidableEq

/-- validateFile (src/lib/deepseek-client.ts lines 204-228): the format check
runs first, then the size check. -/
def validateFile (file : JsFile) : ValidateResult :=
  if file.type ∉ ACCEPTED_TYPES then
    { valid := false,
      error := some (file.name ++ ": Format not supported. Use JPG, PNG, WebP, or PDF.") }
  else if file.size > MAX_SIZE then
    { valid := false,
      error := some (file.name ++ ": File exceeds 10MB limit ("
        ++ formatMB file.size ++ "MB).") }
  else { valid := true, error := none }

/-! Embedding of src/components/batch-processor.tsx. -/

/-- FileResult.status (src/components/batch-processor.tsx line 17). -/
inductive FileStatus
  | pending
  | processing
  | success
  | error
deriving DecidableEq

/-- FileResult (src/components/batch-processor.tsx lines 14-21). -/
structure FileResult where
  filename : String
  file : JsFile
  status : FileStatus
  extractedText : Option String
  error : Option String
  tokensUsed : Option Nat
deriving DecidableEq

/-- Default FileResult used with List.getD (out-of-range reads never occur in
the verified statements). -/
def dfr : FileResult :=
  { filename := "", file := { name := "", type := "", size := 0 }, status := .pending,
    extractedText := none, error := none, tokensUsed := none }

/-- Outcome of one per-file iteration of the batch loop: extractText returned
data, extractText returned an error (the loop stores `error.message`), or
fileToBase64/extractText threw (the catch block stores the computed message).
extractText always returns exactly one of data and error, as proved below, so
these three cases are exhaustive. -/
inductive Outcome
  | ok (text : String) (tokens : Nat)
  | apiErr (msg : String)
  | exn (msg : String)
deriving DecidableEq

/-- The settled record written for file i (src/components/batch-processor.tsx
lines 59-82): success with extractedText and tokensUsed on data, error with a
message otherwise. -/
def applyOutcome (r : FileResult) (o : Outcome) : FileResult :=
  match o with
  | .ok t tok => { r with status := .success, extractedText := some t, tokensUsed := some tok }
  | .apiErr m => { r with status := .error, error := some m }
  | .exn m => { r with status := .error, error := some m }

/-- Marking step `updatedResults[i] = { ...updatedResults[i], status: "processing" }`
(src/components/batch-processor.tsx line 49). -/
def startFile (i : Nat) (res : List FileResult) : List FileResult :=
  res.set i { res.getD i dfr with status := .processing }

/-- Recording the outcome of file i over its current record
(src/components/batch-processor.tsx lines 59-82). -/
def settleFile (i : Nat) (o : Outcome) (res : List FileResult) : List FileResult :=
  res.set i (applyOutcome (res.getD i dfr) o)

/-- The sequence of `setResults` snapshots emitted by the processFiles loop
(src/components/batch-processor.tsx lines 44-90): for each file, first the
state with that file marked processing, then the state with its outcome
recorded. -/
def processFilesGo : List Outcome → Nat → List FileResult → List (List FileResult)
  | [], _, _ => []
  | o :: rest, i, res =>
    startFile i res :: settleFile i o (startFile i res)
      :: processFilesGo rest (i + 1) (settleFile i o (startFile i res))

/-- The state of the results array after the processFiles loop has consumed the
given outcomes starting at index i. -/
def runBatch : List Outcome → Nat → List FileResult → List FileResult
  | [], _, res => res
  | o :: rest, i, res => runBatch rest (i + 1) (settleFile i o (startFile i res))

/-- The initial results array (src/components/batch-processor.tsx lines 30-36):
one pending record per file. -/
def initResults (files : List JsFile) : List FileResult :=
  files.map (fun f =>
    { filename := f.name, file := f, status := .pending, extractedText := none,
      error := none, tokensUsed := none })

/-- All `setResults` snapshots of a processFiles run over the given files, with
the i-th outcome standing for what extractText (or a thrown exception) produced
for file i. -/
def processFilesTrace (outs : List Outcome) (files : List JsFile) : List (List FileResult) :=
  processFilesGo outs 0 (initResults files)

/-- The final results array of a processFiles run. -/
def processFiles (outs : List Outcome) (files : List JsFile) : List FileResult :=
  runBatch outs 0 (initResults files)

/-- Events of the control flow of the batch loop: an OCR invocation for file i, or a
wait of the given number of milliseconds. -/
inductive BatchEvent
  | call (i : Nat)
  | wait (ms : Nat)
deriving DecidableEq

/-- The event skeleton of the processFiles loop
(src/components/batch-processor.tsx lines 44-90): each iteration calls the API
for file i and then, when `i < files.length - 1`, awaits a 500 ms timeout.  The
outcome list is consumed one element per iteration; the emitted events never
inspect it. -/
def processEventsGo : List Outcome → Nat → Nat → List BatchEvent
  | [], _, _ => []
  | _o :: rest, i, n =>
    .call i :: ((if i < n - 1 then [.wait 500] else []) ++ processEventsGo rest (i + 1) n)

/-- The full event sequence of a processFiles run (one outcome per file, so the
loop bound `files.length` equals the outcome count). -/
def processEvents (outs : List Outcome) : List BatchEvent :=
  processEventsGo outs 0 outs.length

/-- failedIndices (src/components/batch-processor.tsx lines 142-144): the
indices with status "error", in ascending order. -/
def failedIndices (res : List FileResult) : List Nat :=
  (List.range res.length).filter (fun i => decide ((res.getD i dfr).status = .error))

/-- Retry marking step
`updatedResults[i] = { ...updatedResults[i], status: "processing", error: undefined }`
(src/components/batch-processor.tsx line 158). -/
def retryStart (i : Nat) (res : List FileResult) : List FileResult :=
  res.set i { res.getD i dfr with status := .processing, error := none }

/-- The retry loop body over a list of indices (src/components/batch-processor.tsx
lines 154-185), with outs i the outcome of the re-invocation for file i. -/
def retryRun : List Nat → (Nat → Outcome) → List FileResult → List FileResult
  | [], _, res => res
  | i :: rest, outs, res => retryRun rest outs (settleFile i (outs i) (retryStart i res))

/-- retryFailed (src/components/batch-processor.tsx lines 141-189). -/
def retryFailed (outs : Nat → Outcome) (res : List FileResult) : List FileResult :=
  retryRun (failedIndices res) outs res

/-- The indices for which retryFailed re-invokes the OCR API, in invocation
order (the loop calls extractText once per element of failedIndices). -/
def retryCalls (res : List FileResult) : List Nat := failedIndices res

/-- Filename rewrite `filename.replace(/\.[^.]+$/, ".txt")` (src/components/batch-processor.tsx
line 117): when the name has a final extension (a dot followed by at least one
non-dot character at the end), it is replaced by ".txt"; otherwise the name is
unchanged. -/
def replaceExtTxt (name : String) : String :=
  let rev := name.data.reverse
  let afterDot := rev.takeWhile (fun c => decide (c ≠ '.'))
  if afterDot.length = rev.length then name
  else if afterDot = [] then name
  else String.mk ((rev.drop (afterDot.length + 1)).reverse ++ ".txt".data)

/-- Success filter `results.filter((r) => r.status === "success")`
(src/components/batch-processor.tsx line 105). -/
def successResults (results : List FileResult) : List FileResult :=
  results.filter (fun r => decide (r.status = .success))

/-- The (name, content) entries added to the ZIP archive
(src/components/batch-processor.tsx lines 115-119). -/
def zipEntries (results : List FileResult) : List (String × String) :=
  (successResults results).map (fun r => (replaceExtTxt r.filename, r.extractedText.getD ""))

/-- handleDownloadZip (src/components/batch-processor.tsx lines 104-130): when
no result has status "success" the function returns without building an
archive; otherwise it produces the archive entries. -/
def handleDownloadZip (results : List FileResult) : Option (List (String × String)) :=
  if successResults results = [] then none else some (zipEntries results)

/-! Helper lemmas. -/

theorem getD_cons_succ (a : α) (l : List α) (n : Nat) (d : α) :
    (a :: l).getD (n + 1) d = l.getD n d := rfl

theorem getD_cons_zero (a : α) (l : List α) (d : α) : (a :: l).getD 0 d = a := rfl

theorem getD_set_self (l : List α) (i : Nat) (a d : α) (h : i < l.length) :
    (l.set i a).getD i d = a := by
  induction l generalizing i with
  | nil => simp at h
  | cons x xs ih =>
    cases i with
    | zero => rfl
    | succ i =>
      simp only [List.set_cons_succ, getD_cons_succ]
      exact ih i (by simpa using h)

theorem getD_set_ne (l : List α) (i j : Nat) (a d : α) (h : i ≠ j) :
    (l.set i a).getD j d = l.getD j d := by
  induction l generalizing i j with
  | nil => simp [List.set]
  | cons x xs ih =>
    cases i with
    | zero =>
      cases j with
      | zero => exact absurd rfl h
      | succ j => rfl
    | succ i =>
      cases j with
      | zero => rfl
      | succ j =>
        simp only [List.set_cons_succ, getD_cons_succ]
        exact ih i j (by omega)

theorem getD_eq_getElem (l : List α) (i : Nat) (d : α) (h : i < l.length) :
    l.getD i d = l[i] := by
  induction l generalizing i with
  | nil => simp at h
  | cons x xs ih =>
    cases i with
    | zero => rfl
    | succ i => exact ih i (by simpa using h)

theorem dbLookup_dbUpdate_self (db : Db) (u v : String) (h : (dbLookup db u).isSome) :
    dbLookup (dbUpdate db u v) u = some v := by
  induction db with
  | nil => simp [dbLookup] at h
  | cons row rest ih =>
    obtain ⟨ru, rv⟩ := row
    by_cases hru : ru = u
    · simp [dbUpdate, dbLookup, hru]
    · simp only [dbUpdate, dbLookup, if_neg hru] at h ⊢
      exact ih h

theorem dbLookup_dbUpdate_ne (db : Db) (u v u' : String) (h : u' ≠ u) :
    dbLookup (dbUpdate db u v) u' = dbLookup db u' := by
  induction db with
  | nil => rfl
  | cons row rest ih =>
    obtain ⟨ru, rv⟩ := row
    by_cases hru' : ru = u'
    · have hru : ¬ ru = u := by
        rw [hru']
        exact h
      subst hru'
      simp [dbUpdate, dbLookup, if_neg hru]
    · simp only [dbUpdate, dbLookup, if_neg hru']
      exact ih

theorem mem_dbUpdate (db : Db) (u v : String) (r : String × String)
    (h : r ∈ dbUpdate db u v) : r ∈ db ∨ r.2 = v := by
  induction db with
  | nil => simp [dbUpdate] at h
  | cons row rest ih =>
    obtain ⟨ru, rv⟩ := row
    simp only [dbUpdate, List.mem_cons] at h
    rcases h with h | h
    · by_cases hru : ru = u
      · rw [if_pos hru] at h
        right
        rw [h]
      · rw [if_neg hru] at h
        left
        rw [h]
        exact List.mem_cons_self _ _
    · rcases ih h with hm | hv
      · exact Or.inl (List.mem_cons_of_mem _ hm)
      · exact Or.inr hv

theorem dbLookup_append_of_none (db : Db) (u v : String) (h : dbLookup db u = none) :
    dbLookup (db ++ [(u, v)]) u = some v := by
  induction db with
  | nil => simp [dbLookup]
  | cons row rest ih =>
    obtain ⟨ru, rv⟩ := row
    by_cases hru : ru = u
    · simp [dbLookup, hru] at h
    · simp only [dbLookup, if_neg hru] at h ⊢
      exact ih h

theorem dbLookup_append_ne (db : Db) (u v u' : String) (h : u' ≠ u) :
    dbLookup (db ++ [(u, v)]) u' = dbLookup db u' := by
  induction db with
  | nil => simp [dbLookup, if_neg (Ne.symm h)]
  | cons row rest ih =>
    obtain ⟨ru, rv⟩ := row
    by_cases hru' : ru = u'
    · simp [dbLookup, hru']
    · simp only [List.cons_append, dbLookup, if_neg hru']
      exact ih

/-- The encrypted value saveApiKey leaves under the user id (shared by the
theorems for C1 and C2). -/
theorem saveApiKey_lookup_self (p : Platform) (iv : List Nat) (db : Db)
    (userId apiKey : String) :
    dbLookup (saveApiKey p iv db userId apiKey) userId
      = some (encryptApiKey p iv apiKey userId) := by
  unfold saveApiKey
  cases h : dbLookup db userId with
  | none => exact dbLookup_append_of_none db userId _ h
  | some enc => exact dbLookup_dbUpdate_self db userId _ (by simp [h])

/-- C1: saveApiKey persists exactly the client-side encryption of the key:
after saving, the user_api_keys row for userId holds encryptApiKey(apiKey,
userId) (whether the insert or the update path ran), rows of other users are
untouched, every row of the new table is an old row or holds that encrypted
value (so the plaintext apiKey is never written), and the encrypted value is
the base64 encoding of the 12-byte IV followed by the AES-GCM ciphertext under
the key derived from userId. -/
theorem saveApiKey_stores_encrypted (p : Platform) (iv : List Nat) (db : Db)
    (userId apiKey : String) :
    dbLookup (saveApiKey p iv db userId apiKey) userId
      = some (encryptApiKey p iv apiKey userId)
    ∧ (∀ u, u ≠ userId →
        dbLookup (saveApiKey p iv db userId apiKey) u = dbLookup db u)
    ∧ (∀ r ∈ saveApiKey p iv db userId apiKey,
        r ∈ db ∨ r.2 = encryptApiKey p iv apiKey userId)
    ∧ encryptApiKey p iv apiKey userId
      = p.btoa (iv ++ p.aesGcmEncrypt (deriveKey p userId) iv (p.textEncode apiKey)) := by
  refine ⟨saveApiKey_lookup_self p iv db userId apiKey, ?_, ?_, rfl⟩
  · intro u hu
    unfold saveApiKey
    cases h : dbLookup db userId with
    | none => exact dbLookup_append_ne db userId _ u hu
    | some enc => exact dbLookup_dbUpdate_ne db userId _ u hu
  · intro r hr
    unfold saveApiKey at hr
    cases h : dbLookup db userId with
    | none =>
      rw [h] at hr
      simp only [dbInsert, List.mem_append, List.mem_singleton] at hr
      rcases hr with hm | hm
      · exact Or.inl hm
      · exact Or.inr (by rw [hm])
    | some enc =>
      rw [h] at hr
      exact mem_dbUpdate db userId _ r hr

/-- C1 witness: the theorem applied to the reference platform, a concrete IV,
an empty table and concrete credentials. -/
theorem saveApiKey_stores_encrypted_witness :
    dbLookup (saveApiKey refPlatform (List.replicate 12 0) [] "user-1" "sk-test-key")
        "user-1"
      = some (encryptApiKey refPlatform (List.replicate 12 0) "sk-test-key" "user-1")
    ∧ ∀ u, u ≠ "user-1" →
        dbLookup (saveApiKey refPlatform (List.replicate 12 0) [] "user-1" "sk-test-key") u
          = dbLookup [] u :=
  ⟨(saveApiKey_stores_encrypted refPlatform (List.replicate 12 0) [] "user-1"
      "sk-test-key").1,
   (saveApiKey_stores_encrypted refPlatform (List.replicate 12 0) [] "user-1"
      "sk-test-key").2.1⟩

/-- C2: decrypting with the same user id inverts encryption, and getApiKey
after saveApiKey returns the saved key. -/
theorem decryptApiKey_encryptApiKey (p : Platform) (iv : List Nat) (userId apiKey : String)
    (hlen : iv.length = 12) (hbytes : ∀ b ∈ iv, b < 256) :
    decryptApiKey p (encryptApiKey p iv apiKey userId) userId = some apiKey
    ∧ ∀ db, getApiKey p (saveApiKey p iv db userId apiKey) userId = some apiKey := by
  have hroundtrip :
      decryptApiKey p (encryptApiKey p iv apiKey userId) userId = some apiKey := by
    have hct : ∀ b ∈ p.aesGcmEncrypt (deriveKey p userId) iv (p.textEncode apiKey),
        b < 256 :=
      p.aesGcmEncrypt_byte_lt _ _ _ (p.textEncode_byte_lt apiKey)
    have hall : ∀ b ∈ iv ++ p.aesGcmEncrypt (deriveKey p userId) iv (p.textEncode apiKey),
        b < 256 := by
      intro b hb
      rcases List.mem_append.1 hb with hb | hb
      · exact hbytes b hb
      · exact hct b hb
    unfold decryptApiKey encryptApiKey
    rw [p.atob_btoa _ hall, List.take_left' hlen, List.drop_left' hlen,
      p.aesGcmDecrypt_encrypt, Option.map_some', p.textDecode_textEncode]
  refine ⟨hroundtrip, ?_⟩
  intro db
  unfold getApiKey
  rw [saveApiKey_lookup_self p iv db userId apiKey]
  exact hroundtrip

/-- C2 witness: the round trip evaluated on the reference platform with a
concrete IV, key and user. -/
theorem decryptApiKey_encryptApiKey_witness :
    (List.replicate (α := Nat) 12 7).length = 12
    ∧ (∀ b ∈ List.replicate (α := Nat) 12 7, b < 256)
    ∧ decryptApiKey refPlatform
        (encryptApiKey refPlatform (List.replicate 12 7) "sk-test-key" "user-1") "user-1"
      = some "sk-test-key" :=
  ⟨by decide, by decide,
   (decryptApiKey_encryptApiKey refPlatform (List.replicate 12 7) "user-1" "sk-test-key"
      (by decide) (by decide)).1⟩

/-- C3: the prompt sent by extractText is a function of the prompt type alone —
the only text part of the request is OCR_PROMPTS[promptType], independent of the
image, the API key and the MIME type, and the default prompt type yields
"Convert the document to markdown.". -/
theorem extractText_prompt_fixed (imageBase64 apiKey mimeType : String)
    (promptType : OCRPromptType) :
    promptTextsOf (extractTextRequest imageBase64 mimeType promptType)
      = [OCR_PROMPTS promptType]
    ∧ OCR_PROMPTS defaultPromptType = "Convert the document to markdown."
    ∧ ∀ img2 mime2,
        promptTextsOf (extractTextRequest img2 mime2 promptType)
          = promptTextsOf (extractTextRequest imageBase64 mimeType promptType) :=
  ⟨rfl, rfl, fun _ _ => rfl⟩

/-- C8: validateFile accepts exactly the files whose MIME type is accepted and
whose size is at most 10485760 bytes; each rejection carries a message that
starts with the name of the file, and the format check takes precedence over the
size check. -/
theorem validateFile_spec (file : JsFile) :
    ((validateFile file).valid = true ↔
      file.type ∈ ACCEPTED_TYPES ∧ file.size ≤ 10485760)
    ∧ ((validateFile file).valid = false →
        (validateFile file).error
          = some (if file.type ∈ ACCEPTED_TYPES then
              file.name ++ ": File exceeds 10MB limit (" ++ formatMB file.size ++ "MB)."
            else
              file.name ++ ": Format not supported. Use JPG, PNG, WebP, or PDF."))
    ∧ (file.type ∉ ACCEPTED_TYPES →
        (validateFile file).error
          = some (file.name ++ ": Format not supported. Use JPG, PNG, WebP, or PDF.")) := by
  have hmax : MAX_SIZE = 10485760 := by norm_num [MAX_SIZE]
  by_cases ht : file.type ∈ ACCEPTED_TYPES
  · by_cases hs : file.size > MAX_SIZE
    · refine ⟨?_, ?_, ?_⟩
      · simp [validateFile, ht, hs]
        omega
      · intro _
        simp [validateFile, ht, hs]
      · intro hc
        exact absurd ht hc
    · refine ⟨?_, ?_, ?_⟩
      · simp [validateFile, ht, hs]
        omega
      · intro hv
        simp [validateFile, ht, hs] at hv
      · intro hc
        exact absurd ht hc
  · refine ⟨?_, ?_, ?_⟩
    · simp [validateFile, ht]
    · intro _
      simp [validateFile, ht]
    · intro _
      simp [validateFile, ht]

/-- C8 witness: the theorem applied to a file of rejected type, and to an
accepted file. -/
theorem validateFile_spec_witness :
    (validateFile { name := "doc.docx", type := "text/plain", size := 5 }).error
      = some "doc.docx: Format not supported. Use JPG, PNG, WebP, or PDF."
    ∧ (validateFile { name := "a.png", type := "image/png", size := 100 }).valid = true :=
  ⟨(validateFile_spec { name := "doc.docx", type := "text/plain", size := 5 }).2.2
      (by decide),
   (validateFile_spec { name := "a.png", type := "image/png", size := 100 }).1.mpr
      ⟨by decide, by decide⟩⟩

/-- Membership in the filtered success list (shared helper for C7). -/
theorem mem_successResults (results : List FileResult) (r : FileResult) :
    r ∈ successResults results ↔ r ∈ results ∧ r.status = .success := by
  unfold successResults
  rw [List.mem_filter]
  simp only [decide_eq_true_eq]

/-- C7: the ZIP export contains exactly one entry per success-status result —
named by replacing the final extension with ".txt" and holding the extracted
text of that result (empty when absent) — results of any other status contribute no
entry, and when no result has status "success" no archive is produced. -/
theorem handleDownloadZip_spec (results : List FileResult) :
    (handleDownloadZip results = none ↔ ∀ r ∈ results, r.status ≠ .success)
    ∧ (∀ entries, handleDownloadZip results = some entries →
        entries = (successResults results).map
          (fun r => (replaceExtTxt r.filename, r.extractedText.getD "")))
    ∧ (∀ r, r ∈ successResults results ↔ r ∈ results ∧ r.status = .success) := by
  refine ⟨?_, ?_, mem_successResults results⟩
  · constructor
    · intro hnone r hr hs
      by_cases h : successResults results = []
      · have hmem : r ∈ successResults results := (mem_successResults results r).mpr ⟨hr, hs⟩
        rw [h] at hmem
        exact List.not_mem_nil r hmem
      · unfold handleDownloadZip at hnone
        rw [if_neg h] at hnone
        exact Option.noConfusion hnone
    · intro hall
      have h : successResults results = [] := by
        cases hsr : successResults results with
        | nil => rfl
        | cons a t =>
          have hmem : a ∈ successResults results := by
            rw [hsr]
            exact List.mem_cons_self a t
          rcases (mem_successResults results a).1 hmem with ⟨ha, hs⟩
          exact absurd hs (hall a ha)
      unfold handleDownloadZip
      rw [if_pos h]
  · intro entries he
    unfold handleDownloadZip at he
    by_cases h : successResults results = []
    · rw [if_pos h] at he
      exact Option.noConfusion he
    · rw [if_neg h] at he
      exact (Option.some.injEq _ _ ▸ he).symm

/-- Sample batch results used to evaluate the ZIP export and retry theorems on
concrete inputs. -/
def sampleSuccess : FileResult :=
  { filename := "report.pdf",
    file := { name := "report.pdf", type := "application/pdf", size := 10 },
    status := .success, extractedText := some "hello", error := none, tokensUsed := some 3 }

/-- Sample failed batch result. -/
def sampleFailure : FileResult :=
  { filename := "scan.png",
    file := { name := "scan.png", type := "image/png", size := 10 },
    status := .error, extractedText := none, error := some "boom", tokensUsed := none }

/-- C7 witness: the theorem applied to a concrete result list with one success
and one error. -/
theorem handleDownloadZip_spec_witness :
    handleDownloadZip [sampleSuccess, sampleFailure] = some [("report.txt", "hello")]
    ∧ [("report.txt", "hello")]
      = (successResults [sampleSuccess, sampleFailure]).map
          (fun r => (replaceExtTxt r.filename, r.extractedText.getD "")) :=
  ⟨by decide,
   (handleDownloadZip_spec [sampleSuccess, sampleFailure]).2.1 [("report.txt", "hello")]
      (by decide)⟩

/-- C10 counterexample: the length of the masked output is not independent of
the length of the key — the empty key masks to 8 characters while an 8-character key
masks to 19. -/
theorem maskApiKey_not_length_independent :
    (maskApiKey "").length ≠ (maskApiKey "abcdefgh").length := by decide

/-- C10 (amended): keys of length at least 8 mask to their first 3 characters,
exactly 12 bullets, and their last 4 characters (19 characters in all); keys
shorter than 8 characters (including the empty key) mask to exactly 8 bullets;
the mask depends only on the first 3 characters, the last 4 characters, and
whether the key is shorter than 8 characters, so its length takes only the two
values 8 and 19 and reveals at most 7 characters of the key. -/
theorem maskApiKey_spec (apiKey : String) :
    (8 ≤ apiKey.length →
      maskApiKey apiKey
        = String.mk (apiKey.data.take 3) ++ String.mk (List.replicate 12 '•')
          ++ String.mk (apiKey.data.drop (apiKey.data.length - 4))
      ∧ (maskApiKey apiKey).length = 19)
    ∧ (apiKey.length < 8 →
        maskApiKey apiKey = "••••••••" ∧ (maskApiKey apiKey).length = 8)
    ∧ (∀ k2 : String,
        apiKey.data.take 3 = k2.data.take 3 →
        apiKey.data.drop (apiKey.data.length - 4) = k2.data.drop (k2.data.length - 4) →
        (apiKey.length < 8 ↔ k2.length < 8) →
        maskApiKey apiKey = maskApiKey k2) := by
  have hlendata : apiKey.length = apiKey.data.length := rfl
  refine ⟨?_, ?_, ?_⟩
  · intro h
    have hlt : ¬ apiKey.length < 8 := by omega
    constructor
    · unfold maskApiKey
      rw [if_neg hlt]
    · unfold maskApiKey
      rw [if_neg hlt]
      have hjoin :
          String.mk (apiKey.data.take 3) ++ String.mk (List.replicate 12 '•')
            ++ String.mk (apiKey.data.drop (apiKey.data.length - 4))
          = String.mk (apiKey.data.take 3 ++ List.replicate 12 '•'
              ++ apiKey.data.drop (apiKey.data.length - 4)) := rfl
      rw [hjoin]
      show (apiKey.data.take 3 ++ List.replicate 12 '•'
          ++ apiKey.data.drop (apiKey.data.length - 4)).length = 19
      rw [List.length_append, List.length_append, List.length_take,
        List.length_replicate, List.length_drop]
      omega
  · intro h
    unfold maskApiKey
    rw [if_pos h]
    exact ⟨rfl, by decide⟩
  · intro k2 ht hd hiff
    by_cases h1 : apiKey.length < 8
    · unfold maskApiKey
      rw [if_pos h1, if_pos (hiff.mp h1)]
    · unfold maskApiKey
      rw [if_neg h1, if_neg (fun hh => h1 (hiff.mpr hh)), ht, hd]

/-- C10 witness: the amended theorem applied to a concrete 12-character key. -/
theorem maskApiKey_spec_witness :
    8 ≤ ("sk-test-1234" : String).length
    ∧ maskApiKey "sk-test-1234"
      = String.mk (("sk-test-1234" : String).data.take 3)
        ++ String.mk (List.replicate 12 '•')
        ++ String.mk (("sk-test-1234" : String).data.drop
            (("sk-test-1234" : String).data.length - 4)) :=
  ⟨by decide, ((maskApiKey_spec "sk-test-1234").1 (by decide)).1⟩

/-- The event skeleton of the batch loop as a function of the remaining iteration
count alone (shared helper for C5). -/
def scheduleEvents : Nat → Nat → List BatchEvent
  | 0, _ => []
  | k + 1, i =>
    .call i :: ((if 0 < k then [.wait 500] else []) ++ scheduleEvents k (i + 1))

theorem processEventsGo_eq_schedule (outs : List Outcome) :
    ∀ i n, i + outs.length = n → processEventsGo outs i n = scheduleEvents outs.length i := by
  induction outs with
  | nil => intro i n _; rfl
  | cons o rest ih =>
    intro i n h
    have h' : i + rest.length + 1 = n := by
      simp only [List.length_cons] at h
      omega
    simp only [processEventsGo, List.length_cons, scheduleEvents]
    by_cases hr : 0 < rest.length
    · rw [if_pos (show i < n - 1 by omega), if_pos hr, ih (i + 1) n (by omega)]
    · rw [if_neg (show ¬ i < n - 1 by omega), if_neg hr, ih (i + 1) n (by omega)]

theorem scheduleEvents_closed (m : Nat) :
    ∀ i, scheduleEvents (m + 1) i
      = ((List.range' i m).map (fun t => [BatchEvent.call t, BatchEvent.wait 500])).flatten
        ++ [BatchEvent.call (i + m)] := by
  induction m with
  | zero => intro i; simp [scheduleEvents]
  | succ m ih =>
    intro i
    show BatchEvent.call i
        :: ((if 0 < m + 1 then [BatchEvent.wait 500] else [])
          ++ scheduleEvents (m + 1) (i + 1)) = _
    rw [if_pos (Nat.succ_pos m), ih (i + 1), List.range'_succ]
    have hidx : i + 1 + m = i + (m + 1) := by omega
    rw [hidx]
    simp [List.append_assoc]

/-- C5: the processFiles loop emits one OCR call per file with exactly one
500 ms wait between consecutive calls and none after the last, and the event
sequence (in particular every wait and its duration) is a function of the file
count alone, independent of the files and of the per-file outcomes. -/
theorem processFiles_delay_spec (outs : List Outcome) (hne : outs ≠ []) :
    processEvents outs
      = ((List.range' 0 (outs.length - 1)).map
          (fun t => [BatchEvent.call t, BatchEvent.wait 500])).flatten
        ++ [BatchEvent.call (outs.length - 1)]
    ∧ (∀ outs2 : List Outcome, outs2.length = outs.length →
        processEvents outs2 = processEvents outs)
    ∧ (∀ ms, BatchEvent.wait ms ∈ processEvents outs → ms = 500) := by
  obtain ⟨m, hm⟩ : ∃ m, outs.length = m + 1 := by
    cases outs with
    | nil => exact absurd rfl hne
    | cons o rest => exact ⟨rest.length, rfl⟩
  have hev : processEvents outs = scheduleEvents outs.length 0 :=
    processEventsGo_eq_schedule outs 0 outs.length (by omega)
  have hclosed :
      processEvents outs
        = ((List.range' 0 m).map
            (fun t => [BatchEvent.call t, BatchEvent.wait 500])).flatten
          ++ [BatchEvent.call m] := by
    rw [hev, hm, scheduleEvents_closed m 0]
    simp
  refine ⟨?_, ?_, ?_⟩
  · rw [hclosed, hm]
    simp
  · intro outs2 h2
    have hev2 : processEvents outs2 = scheduleEvents outs2.length 0 :=
      processEventsGo_eq_schedule outs2 0 outs2.length (by omega)
    rw [hev2, h2]
    exact hev.symm
  · intro ms hmem
    rw [hclosed] at hmem
    rcases List.mem_append.1 hmem with h | h
    · obtain ⟨l, hl, hml⟩ := List.mem_flatten.1 h
      obtain ⟨t, _ht, rfl⟩ := List.mem_map.1 hl
      simp only [List.mem_cons, List.not_mem_nil, or_false] at hml
      rcases hml with h1 | h1
      · exact BatchEvent.noConfusion h1
      · exact BatchEvent.wait.inj h1
    · rw [List.mem_singleton] at h
      exact BatchEvent.noConfusion h

/-- C5 witness: the theorem applied to a concrete two-outcome run. -/
theorem processFiles_delay_spec_witness :
    ([Outcome.ok "t" 1, Outcome.exn "e"] ≠ ([] : List Outcome))
    ∧ processEvents [Outcome.ok "t" 1, Outcome.exn "e"]
      = ((List.range' 0 1).map
          (fun t => [BatchEvent.call t, BatchEvent.wait 500])).flatten
        ++ [BatchEvent.call 1] :=
  ⟨by decide, (processFiles_delay_spec [Outcome.ok "t" 1, Outcome.exn "e"] (by decide)).1⟩

/-- Indices selected by retryFailed (shared helper for C6). -/
theorem mem_failedIndices (res : List FileResult) (i : Nat) :
    i ∈ failedIndices res ↔ i < res.length ∧ (res.getD i dfr).status = .error := by
  unfold failedIndices
  rw [List.mem_filter, List.mem_range]
  simp only [decide_eq_true_eq]

theorem failedIndices_sorted (res : List FileResult) :
    (failedIndices res).Pairwise (· < ·) :=
  (List.pairwise_lt_range res.length).filter _

theorem retryRun_not_mem (outs : Nat → Outcome) (j : Nat) :
    ∀ l : List Nat, j ∉ l →
      ∀ res, (retryRun l outs res).getD j dfr = res.getD j dfr := by
  intro l
  induction l with
  | nil => intro _ res; rfl
  | cons i rest ih =>
    intro hj res
    have hji : i ≠ j := fun hh => hj (hh ▸ List.mem_cons_self _ _)
    have hjr : j ∉ rest := fun hh => hj (List.mem_cons_of_mem _ hh)
    show (retryRun rest outs (settleFile i (outs i) (retryStart i res))).getD j dfr
      = res.getD j dfr
    rw [ih hjr]
    unfold settleFile retryStart
    rw [getD_set_ne _ i j _ _ hji, getD_set_ne _ i j _ _ hji]

/-- C6: retryFailed re-invokes the OCR API exactly for the indices whose status
is "error", in ascending index order; every result whose status is "success" or
"pending" is left completely unchanged; and when no result has status "error"
no invocation happens and no result changes. -/
theorem retryFailed_spec (outs : Nat → Outcome) (res : List FileResult) :
    (∀ i, i ∈ retryCalls res ↔ i < res.length ∧ (res.getD i dfr).status = .error)
    ∧ (retryCalls res).Pairwise (· < ·)
    ∧ (∀ j, (res.getD j dfr).status = .success ∨ (res.getD j dfr).status = .pending →
        (retryFailed outs res).getD j dfr = res.getD j dfr)
    ∧ ((∀ r ∈ res, r.status ≠ .error) →
        retryCalls res = [] ∧ retryFailed outs res = res) := by
  refine ⟨mem_failedIndices res, failedIndices_sorted res, ?_, ?_⟩
  · intro j hj
    apply retryRun_not_mem
    intro hmem
    rcases (mem_failedIndices res j).1 hmem with ⟨_, herr⟩
    rcases hj with hs | hs <;> rw [hs] at herr <;> exact FileStatus.noConfusion herr
  · intro hall
    have hempty : failedIndices res = [] := by
      cases hfi : failedIndices res with
      | nil => rfl
      | cons a t =>
        have hmem : a ∈ failedIndices res := by
          rw [hfi]
          exact List.mem_cons_self a t
        rcases (mem_failedIndices res a).1 hmem with ⟨hlt, herr⟩
        have hin : res.getD a dfr ∈ res := by
          rw [getD_eq_getElem res a dfr hlt]
          exact List.getElem_mem hlt
        exact absurd herr (hall _ hin)
    refine ⟨hempty, ?_⟩
    unfold retryFailed
    rw [hempty]
    rfl

/-- Fixed retry outcome used by the C6 witness. -/
def sampleRetryOuts : Nat → Outcome := fun _ => Outcome.ok "retried" 2

/-- C6 witness: the theorem applied to a concrete result list; the
success-status result at index 0 is untouched by the retry. -/
theorem retryFailed_spec_witness :
    (([sampleSuccess, sampleFailure].getD 0 dfr).status = .success
      ∨ ([sampleSuccess, sampleFailure].getD 0 dfr).status = .pending)
    ∧ (retryFailed sampleRetryOuts [sampleSuccess, sampleFailure]).getD 0 dfr
      = [sampleSuccess, sampleFailure].getD 0 dfr :=
  ⟨Or.inl (by decide),
   (retryFailed_spec sampleRetryOuts [sampleSuccess, sampleFailure]).2.2.1 0
      (Or.inl (by decide))⟩

/-- C9 counterexample: a 401 response whose body does not parse as JSON is
classified "unknown", not "invalid_key", so the unconditional status
classification stated by the claim fails. -/
theorem extractText_401_nonjson_unknown :
    (extractText (FetchOutcome.httpErr 401 none none)).error
      = some { type := ErrType.unknown, message := "HTTP 401 error occurred",
               retryAfter := none }
    ∧ ErrType.unknown ≠ ErrType.invalid_key := by decide

/-- C9 (amended): extractText never throws and returns exactly one of data and
error; when the error-response body parses as JSON the error type classifies
the HTTP status (401/403 invalid_key; 429 rate_limit with retryAfter parsed
from the Retry-After header, defaulting to 5; 500/502/503 server; anything else
unknown); when the error body fails to parse, any non-ok status yields type
unknown with message "HTTP {status} error occurred"; an aborted request (the
60000 ms timeout) yields type timeout. -/
theorem extractText_classification (outcome : FetchOutcome) :
    ((extractText outcome).data.isSome ↔ (extractText outcome).error = none)
    ∧ ((extractText outcome).data.isSome ∨ (extractText outcome).error.isSome)
    ∧ (∀ status hdr b, outcome = FetchOutcome.httpErr status hdr (some b) →
        ((status = 401 ∨ status = 403) →
          (extractText outcome).error.map OCRError.type = some ErrType.invalid_key)
        ∧ (status = 429 →
          (extractText outcome).error.map OCRError.type = some ErrType.rate_limit
          ∧ (extractText outcome).error.map OCRError.retryAfter
              = some (some (jsParseInt (jsOrStr hdr "5")))
          ∧ (hdr = none →
              (extractText outcome).error.map OCRError.retryAfter
                = some (some (JsNum.num 5))))
        ∧ ((status = 500 ∨ status = 502 ∨ status = 503) →
          (extractText outcome).error.map OCRError.type = some ErrType.server)
        ∧ (status ≠ 401 → status ≠ 403 → status ≠ 429 → status ≠ 500 → status ≠ 502 →
            status ≠ 503 →
          (extractText outcome).error.map OCRError.type = some ErrType.unknown))
    ∧ (∀ status hdr, outcome = FetchOutcome.httpErr status hdr none →
        (extractText outcome).error
          = some { type := ErrType.unknown,
                   message := "HTTP " ++ toString status ++ " error occurred",
                   retryAfter := none })
    ∧ (∀ msg, outcome = FetchOutcome.thrown (JsError.jsErr "AbortError" msg) →
        (extractText outcome).error.map OCRError.type = some ErrType.timeout)
    ∧ EXTRACT_TIMEOUT_MS = 60000 := by
  refine ⟨?_, ?_, ?_, ?_, ?_, rfl⟩
  · cases outcome <;> simp [extractText]
  · cases outcome <;> simp [extractText]
  · rintro status hdr b rfl
    refine ⟨?_, ?_, ?_, ?_⟩
    · rintro (rfl | rfl) <;> rfl
    · rintro rfl
      refine ⟨rfl, rfl, ?_⟩
      rintro rfl
      rfl
    · rintro (rfl | rfl | rfl) <;> rfl
    · intro h1 h2 h3 h4 h5 h6
      simp only [extractText, Option.map_some']
      have hs : (handleErrorResponse status hdr (some b)).type = ErrType.unknown := by
        simp only [handleErrorResponse]
        rw [if_neg (by omega), if_neg (by omega), if_neg (by omega)]
      rw [hs]
  · rintro status hdr rfl
    rfl
  · rintro msg rfl
    rfl

/-- C9 witness: the amended theorem applied to a rate-limited response with a
JSON body and no Retry-After header. -/
theorem extractText_classification_witness :
    (extractText (FetchOutcome.httpErr 429 none
        (some { nestedErrorMessage := none, topMessage := none }))).error.map OCRError.type
      = some ErrType.rate_limit
    ∧ (extractText (FetchOutcome.httpErr 429 none
        (some { nestedErrorMessage := none, topMessage := none }))).error.map
          OCRError.retryAfter
      = some (some (JsNum.num 5)) := by
  have h := (extractText_classification
      (FetchOutcome.httpErr 429 none
        (some { nestedErrorMessage := none, topMessage := none }))).2.2.1 429 none
      { nestedErrorMessage := none, topMessage := none } rfl
  exact ⟨(h.2.1 rfl).1, (h.2.1 rfl).2.2 rfl⟩

/-- A settled batch record: success with extracted text and token count
recorded, or error with a message recorded. -/
def settledOk (r : FileResult) : Prop :=
  (r.status = .success ∧ r.extractedText.isSome ∧ r.tokensUsed.isSome)
  ∨ (r.status = .error ∧ r.error.isSome)

instance instDecidableSettledOk (r : FileResult) : Decidable (settledOk r) := by
  unfold settledOk
  infer_instance

theorem applyOutcome_settledOk (r : FileResult) (o : Outcome) :
    settledOk (applyOutcome r o) := by
  cases o <;> simp [applyOutcome, settledOk]

theorem settledOk_ne_processing (r : FileResult) (h : settledOk r) :
    r.status ≠ .processing := by
  rcases h with ⟨h1, _⟩ | ⟨h1, _⟩ <;> rw [h1] <;> exact fun hh => FileStatus.noConfusion hh

theorem length_startFile (i : Nat) (res : List FileResult) :
    (startFile i res).length = res.length := List.length_set res i _

theorem length_settleFile (i : Nat) (o : Outcome) (res : List FileResult) :
    (settleFile i o res).length = res.length := List.length_set res i _

theorem length_runBatch (outs : List Outcome) :
    ∀ i res, (runBatch outs i res).length = res.length := by
  induction outs with
  | nil => intro i res; rfl
  | cons o rest ih =>
    intro i res
    show (runBatch rest (i + 1) (settleFile i o (startFile i res))).length = _
    rw [ih (i + 1), length_settleFile, length_startFile]

theorem runBatch_getD_ge (outs : List Outcome) :
    ∀ i res j, i + outs.length ≤ j →
      (runBatch outs i res).getD j dfr = res.getD j dfr := by
  induction outs with
  | nil => intro i res j _; rfl
  | cons o rest ih =>
    intro i res j hj
    have hj' : i + rest.length + 1 ≤ j := by
      simp only [List.length_cons] at hj
      omega
    show (runBatch rest (i + 1) (settleFile i o (startFile i res))).getD j dfr = _
    rw [ih (i + 1) _ j (by omega)]
    unfold settleFile startFile
    rw [getD_set_ne _ i j _ _ (by omega), getD_set_ne _ i j _ _ (by omega)]

theorem runBatch_settled (outs : List Outcome) :
    ∀ i res, (∀ k, k < i → settledOk (res.getD k dfr)) →
      i + outs.length ≤ res.length →
      ∀ k, k < i + outs.length → settledOk ((runBatch outs i res).getD k dfr) := by
  induction outs with
  | nil =>
    intro i res hpre _ k hk
    exact hpre k (by simpa using hk)
  | cons o rest ih =>
    intro i res hpre hlen k hk
    have hil : i < res.length := by
      simp only [List.length_cons] at hlen
      omega
    have hpre' : ∀ k, k < i + 1 →
        settledOk ((settleFile i o (startFile i res)).getD k dfr) := by
      intro k hk'
      by_cases hki : k = i
      · subst hki
        unfold settleFile
        rw [getD_set_self _ k _ _ (by rw [length_startFile]; exact hil)]
        exact applyOutcome_settledOk _ o
      · unfold settleFile startFile
        rw [getD_set_ne _ i k _ _ (fun hh => hki hh.symm),
          getD_set_ne _ i k _ _ (fun hh => hki hh.symm)]
        exact hpre k (by omega)
    have hlen' : (i + 1) + rest.length ≤ (settleFile i o (startFile i res)).length := by
      rw [length_settleFile, length_startFile]
      simp only [List.length_cons] at hlen
      omega
    show settledOk ((runBatch rest (i + 1) (settleFile i o (startFile i res))).getD k dfr)
    exact ih (i + 1) _ hpre' hlen' k (by simp only [List.length_cons] at hk; omega)

theorem initResults_length (files : List JsFile) :
    (initResults files).length = files.length := List.length_map _ _

theorem initResults_status (files : List JsFile) :
    ∀ k, ((initResults files).getD k dfr).status = .pending := by
  induction files with
  | nil => intro k; rfl
  | cons f fs ih =>
    intro k
    cases k with
    | zero => rfl
    | succ k => exact ih k

theorem length_processFilesGo (outs : List Outcome) :
    ∀ i res, (processFilesGo outs i res).length = 2 * outs.length := by
  induction outs with
  | nil => intro i res; rfl
  | cons o rest ih =>
    intro i res
    show (_ :: _ :: processFilesGo rest (i + 1) _).length = _
    simp only [List.length_cons, ih, List.length_cons]
    omega

theorem processFilesGo_getD_even (outs : List Outcome) :
    ∀ i res k, k < outs.length →
      (processFilesGo outs i res).getD (2 * k) []
        = startFile (i + k) (runBatch (outs.take k) i res) := by
  induction outs with
  | nil => intro i res k hk; simp at hk
  | cons o rest ih =>
    intro i res k hk
    cases k with
    | zero =>
      show (startFile i res :: _ :: _).getD 0 [] = _
      simp [runBatch]
    | succ k =>
      have h2 : 2 * (k + 1) = 2 * k + 1 + 1 := by omega
      rw [h2]
      show (startFile i res :: settleFile i o (startFile i res)
          :: processFilesGo rest (i + 1) (settleFile i o (startFile i res))).getD
            (2 * k + 1 + 1) [] = _
      rw [getD_cons_succ, getD_cons_succ,
        ih (i + 1) _ k (by simpa using hk)]
      have hidx : i + 1 + k = i + (k + 1) := by omega
      rw [hidx]
      rfl

theorem processFilesGo_getD_odd (outs : List Outcome) :
    ∀ i res k, k < outs.length →
      (processFilesGo outs i res).getD (2 * k + 1) []
        = runBatch (outs.take (k + 1)) i res := by
  induction outs with
  | nil => intro i res k hk; simp at hk
  | cons o rest ih =>
    intro i res k hk
    cases k with
    | zero =>
      show (startFile i res :: settleFile i o (startFile i res) :: _).getD 1 [] = _
      rfl
    | succ k =>
      have h2 : 2 * (k + 1) + 1 = 2 * k + 1 + 1 + 1 := by omega
      rw [h2]
      show (startFile i res :: settleFile i o (startFile i res)
          :: processFilesGo rest (i + 1) (settleFile i o (startFile i res))).getD
            (2 * k + 1 + 1 + 1) [] = _
      rw [getD_cons_succ, getD_cons_succ,
        ih (i + 1) _ k (by simpa using hk)]
      rfl

theorem countP_set_processing_le (l : List FileResult) (j : Nat) (a : FileResult)
    (hl : ∀ r ∈ l, r.status ≠ .processing) :
    (l.set j a).countP (fun r => decide (r.status = .processing)) ≤ 1 := by
  have hzero : ∀ t : List FileResult, (∀ r ∈ t, r.status ≠ .processing) →
      t.countP (fun r => decide (r.status = .processing)) = 0 := by
    intro t ht
    rw [List.countP_eq_zero]
    intro r hr
    simpa using ht r hr
  by_cases hj : j < l.length
  · rw [List.set_eq_take_append_cons_drop, if_pos hj, List.countP_append,
      List.countP_cons]
    rw [hzero (l.take j) (fun r hr => hl r (List.mem_of_mem_take hr)),
      hzero (l.drop (j + 1)) (fun r hr => hl r (List.mem_of_mem_drop hr))]
    split <;> omega
  · rw [List.set_eq_take_append_cons_drop, if_neg hj, hzero l hl]
    omega

/-- C4: over any non-empty file list with one outcome per file, every snapshot
the batch loop publishes has at most one file in status "processing"; for each
file i, snapshot 2i marks exactly file i processing after files 0..i-1 are
settled, snapshot 2i+1 records its settled result (success with extracted text
and token count, or error with a message), file i is still pending in every
earlier snapshot (so the request for file i+1 starts only after the result of
file i is recorded); and in the final state every file is settled as success or error. -/
theorem processFiles_spec (outs : List Outcome) (files : List JsFile)
    (hne : files ≠ []) (hlen : outs.length = files.length) :
    (∀ s ∈ processFilesTrace outs files,
        s.countP (fun r => decide (r.status = .processing)) ≤ 1)
    ∧ (∀ i, i < files.length →
        (((processFilesTrace outs files).getD (2 * i) []).getD i dfr).status = .processing
        ∧ settledOk (((processFilesTrace outs files).getD (2 * i + 1) []).getD i dfr)
        ∧ (∀ k, k < i →
            settledOk (((processFilesTrace outs files).getD (2 * i) []).getD k dfr))
        ∧ (∀ j, j < 2 * i →
            (((processFilesTrace outs files).getD j []).getD i dfr).status = .pending))
    ∧ (∀ r ∈ processFiles outs files, settledOk r) := by
  have hinitlen : (initResults files).length = files.length := initResults_length files
  have htake : ∀ m, m ≤ outs.length → (outs.take m).length = m := by
    intro m hm
    rw [List.length_take]
    omega
  have hsettled : ∀ m, m ≤ outs.length → ∀ k, k < m →
      settledOk ((runBatch (outs.take m) 0 (initResults files)).getD k dfr) := by
    intro m hm k hk
    exact runBatch_settled (outs.take m) 0 (initResults files)
      (fun k hk0 => absurd hk0 (Nat.not_lt_zero k))
      (by rw [htake m hm, hinitlen]; omega) k (by rw [htake m hm]; omega)
  have hpending : ∀ m, m ≤ outs.length → ∀ k, m ≤ k →
      ((runBatch (outs.take m) 0 (initResults files)).getD k dfr).status = .pending := by
    intro m hm k hk
    rw [runBatch_getD_ge (outs.take m) 0 (initResults files) k (by rw [htake m hm]; omega)]
    exact initResults_status files k
  have hnoproc : ∀ m, m ≤ outs.length →
      ∀ r ∈ runBatch (outs.take m) 0 (initResults files), r.status ≠ .processing := by
    intro m hm r hr
    obtain ⟨k, hk, hkr⟩ := List.mem_iff_getElem.1 hr
    have hr' : r = (runBatch (outs.take m) 0 (initResults files)).getD k dfr := by
      rw [getD_eq_getElem _ k dfr hk, hkr]
    by_cases hkm : k < m
    · rw [hr']
      exact settledOk_ne_processing _ (hsettled m hm k hkm)
    · rw [hr', hpending m hm k (by omega)]
      exact fun hh => FileStatus.noConfusion hh
  refine ⟨?_, ?_, ?_⟩
  · intro s hs
    obtain ⟨midx, hmidx, hms⟩ := List.mem_iff_getElem.1 hs
    have hTlen : (processFilesTrace outs files).length = 2 * outs.length :=
      length_processFilesGo outs 0 (initResults files)
    have hmlen : midx < 2 * outs.length := by omega
    have hs' : s = (processFilesTrace outs files).getD midx [] := by
      rw [getD_eq_getElem _ _ _ hmidx, hms]
    rcases Nat.even_or_odd midx with he | ho
    · obtain ⟨k, hk⟩ := he
      have hk2 : midx = 2 * k := by omega
      have hklt : k < outs.length := by omega
      have hform : (processFilesTrace outs files).getD midx []
          = startFile (0 + k) (runBatch (outs.take k) 0 (initResults files)) := by
        rw [hk2]
        exact processFilesGo_getD_even outs 0 (initResults files) k hklt
      rw [hs', hform]
      unfold startFile
      exact countP_set_processing_le _ _ _ (hnoproc k (by omega))
    · obtain ⟨k, hk⟩ := ho
      have hklt : k < outs.length := by omega
      have hform : (processFilesTrace outs files).getD midx []
          = runBatch (outs.take (k + 1)) 0 (initResults files) := by
        rw [hk]
        exact processFilesGo_getD_odd outs 0 (initResults files) k hklt
      rw [hs', hform]
      have h0 : (runBatch (outs.take (k + 1)) 0 (initResults files)).countP
          (fun r => decide (r.status = .processing)) = 0 := by
        rw [List.countP_eq_zero]
        intro r hr
        simpa using hnoproc (k + 1) (by omega) r hr
      rw [h0]
      omega
  · intro i hi
    have hilt : i < outs.length := by omega
    have heform : (processFilesTrace outs files).getD (2 * i) []
        = startFile (0 + i) (runBatch (outs.take i) 0 (initResults files)) :=
      processFilesGo_getD_even outs 0 (initResults files) i hilt
    have hoform : (processFilesTrace outs files).getD (2 * i + 1) []
        = runBatch (outs.take (i + 1)) 0 (initResults files) :=
      processFilesGo_getD_odd outs 0 (initResults files) i hilt
    have hSlen : (runBatch (outs.take i) 0 (initResults files)).length = files.length := by
      rw [length_runBatch, hinitlen]
    refine ⟨?_, ?_, ?_, ?_⟩
    · rw [heform]
      unfold startFile
      rw [Nat.zero_add, getD_set_self _ i _ _ (by rw [hSlen]; exact hi)]
    · rw [hoform]
      exact hsettled (i + 1) (by omega) i (by omega)
    · intro k hki
      rw [heform]
      unfold startFile
      rw [Nat.zero_add, getD_set_ne _ i k _ _ (by omega)]
      exact hsettled i (by omega) k hki
    · intro j hj
      rcases Nat.even_or_odd j with he | ho
      · obtain ⟨k, hk⟩ := he
        have hk2 : j = 2 * k := by omega
        have hklt : k < outs.length := by omega
        have hform : (processFilesTrace outs files).getD j []
            = startFile (0 + k) (runBatch (outs.take k) 0 (initResults files)) := by
          rw [hk2]
          exact processFilesGo_getD_even outs 0 (initResults files) k hklt
        rw [hform]
        unfold startFile
        rw [Nat.zero_add, getD_set_ne _ k i _ _ (by omega)]
        exact hpending k (by omega) i (by omega)
      · obtain ⟨k, hk⟩ := ho
        have hklt : k < outs.length := by omega
        have hform : (processFilesTrace outs files).getD j []
            = runBatch (outs.take (k + 1)) 0 (initResults files) := by
          rw [hk]
          exact processFilesGo_getD_odd outs 0 (initResults files) k hklt
        rw [hform]
        exact hpending (k + 1) (by omega) i (by omega)
  · intro r hr
    obtain ⟨k, hk, hkr⟩ := List.mem_iff_getElem.1 hr
    have hr' : r = (processFiles outs files).getD k dfr := by
      rw [getD_eq_getElem _ k dfr hk, hkr]
    have hPlen : (processFiles outs files).length = files.length := by
      show (runBatch outs 0 (initResults files)).length = _
      rw [length_runBatch, hinitlen]
    have hfull : processFiles outs files
        = runBatch (outs.take outs.length) 0 (initResults files) := by
      rw [List.take_length]
      rfl
    rw [hr', hfull]
    exact hsettled outs.length le_rfl k (by omega)

/-- Concrete file list used by the C4 witness. -/
def sampleFiles : List JsFile :=
  [{ name := "a.pdf", type := "application/pdf", size := 5 },
   { name := "b.png", type := "image/png", size := 6 }]

/-- C4 witness: the theorem applied to a concrete two-file run with one success
and one error outcome. -/
theorem processFiles_spec_witness :
    (sampleFiles ≠ [])
    ∧ [Outcome.ok "text-a" 3, Outcome.apiErr "boom"].length = sampleFiles.length
    ∧ ∀ r ∈ processFiles [Outcome.ok "text-a" 3, Outcome.apiErr "boom"] sampleFiles,
        settledOk r :=
  ⟨by decide, by decide,
   (processFiles_spec [Outcome.ok "text-a" 3, Outcome.apiErr "boom"] sampleFiles
      (by decide) (by decide)).2.2⟩
